import Mathlib

/-!
Verification of the security static-analysis pipeline of
`FastApi/app/core/Agents/security_agent.py`: the regex-based Pattern
Matcher (`run_static_analysis`), the Corroboration Filter
(`verify_ai_finding`), the Merger, the Canonicalizer
(`canonicalize_issue`) and the Scorer.

Python strings are modelled as `List Char` (or Lean `String` at the API
surface), Python `re` patterns are transliterated into a small regular
expression datatype with a Brzozowski-derivative matcher, and Python
`str.lower` is modelled as ASCII lowercasing (`lowC`), matching Python's
behaviour on the ASCII inputs the patterns are written for.
-/

set_option maxHeartbeats 2000000
set_option maxRecDepth 10000

namespace SecAgent

/-! ### ASCII character helpers -/

/-- ASCII lowercasing of one character, the model of Python `str.lower`. -/
def lowC (c : Char) : Char :=
  if 65 ≤ c.toNat ∧ c.toNat ≤ 90 then Char.ofNat (c.toNat + 32) else c

/-- Characters matched by the character class `[a-z0-9]` (used by the
slug fallback of `canonicalize_issue`). -/
def isLowerAlnum (c : Char) : Bool :=
  (97 ≤ c.toNat && c.toNat ≤ 122) || (48 ≤ c.toNat && c.toNat ≤ 57)

/-- The regex class `\s` (ASCII whitespace). -/
def wsCh (c : Char) : Bool :=
  c == ' ' || c == '\t' || c == '\n' || c == '\r' || c == '\x0b' || c == '\x0c'

/-- The regex class `\w` (ASCII word characters). -/
def wordCh (c : Char) : Bool :=
  (97 ≤ c.toNat && c.toNat ≤ 122) || (65 ≤ c.toNat && c.toNat ≤ 90) ||
    (48 ≤ c.toNat && c.toNat ≤ 57) || c == '_'

theorem lowC_toNat (c : Char) :
    (lowC c).toNat = if 65 ≤ c.toNat ∧ c.toNat ≤ 90 then c.toNat + 32 else c.toNat := by
  unfold lowC
  split
  · next h =>
    have hv : (c.toNat + 32).isValidChar := by
      refine Or.inl ?_
      have : c.toNat ≤ 90 := h.2
      omega
    simp only [Char.ofNat, hv, dif_pos]
    rfl
  · rfl

theorem lowC_eq_self_of_not_upper (c : Char) (h : ¬ (65 ≤ c.toNat ∧ c.toNat ≤ 90)) :
    lowC c = c := by
  unfold lowC
  exact if_neg h

theorem lowC_idem (c : Char) : lowC (lowC c) = lowC c := by
  apply lowC_eq_self_of_not_upper
  rw [lowC_toNat]
  split
  · omega
  · assumption

theorem lowC_eq_self_of_lowerAlnum (c : Char) (h : isLowerAlnum c = true) :
    lowC c = c := by
  apply lowC_eq_self_of_not_upper
  unfold isLowerAlnum at h
  simp only [Bool.or_eq_true, Bool.and_eq_true, decide_eq_true_eq] at h
  omega

theorem lowC_underscore : lowC '_' = '_' := by decide

/-- ASCII lowercasing of a character list. -/
def lowL (l : List Char) : List Char := l.map lowC

theorem lowL_idem (l : List Char) : lowL (lowL l) = lowL l := by
  unfold lowL
  rw [List.map_map]
  apply List.map_congr_left
  intro c _
  exact lowC_idem c

/-- ASCII lowercasing of a string, the model of Python `str.lower()`. -/
def lowS (s : String) : String := ⟨lowL s.data⟩

/-! ### Substring occurrence (Python's `needle in haystack`) -/

/-- `leadsWith needle hay`: `needle` is an initial segment of `hay`. -/
def leadsWith : List Char → List Char → Bool
  | [], _ => true
  | _ :: _, [] => false
  | a :: as, b :: bs => a == b && leadsWith as bs

/-- `occursIn needle hay`: `needle` occurs contiguously inside `hay`
(the model of Python's `needle in hay`). -/
def occursIn (needle : List Char) : List Char → Bool
  | [] => leadsWith needle []
  | b :: bs => leadsWith needle (b :: bs) || occursIn needle bs

theorem leadsWith_iff (n h : List Char) :
    leadsWith n h = true ↔ ∃ t, h = n ++ t := by
  induction n generalizing h with
  | nil => simp [leadsWith]
  | cons a as ih =>
    cases h with
    | nil => simp [leadsWith]
    | cons b bs =>
      simp only [leadsWith, Bool.and_eq_true, beq_iff_eq, ih, List.cons_append,
        List.cons.injEq]
      constructor
      · rintro ⟨rfl, t, rfl⟩; exact ⟨t, rfl, rfl⟩
      · rintro ⟨t, rfl, rfl⟩; exact ⟨rfl, t, rfl⟩

theorem occursIn_iff (n h : List Char) :
    occursIn n h = true ↔ ∃ u v, h = u ++ n ++ v := by
  induction h with
  | nil =>
    simp only [occursIn, leadsWith_iff]
    constructor
    · rintro ⟨t, ht⟩
      exact ⟨[], t, by simp [ht]⟩
    · rintro ⟨u, v, huv⟩
      rcases List.append_eq_nil.mp (List.append_eq_nil.mp huv.symm).1 with ⟨h1, h2⟩
      exact ⟨v, by simp_all⟩
  | cons b bs ih =>
    simp only [occursIn, Bool.or_eq_true, leadsWith_iff, ih]
    constructor
    · rintro (⟨t, ht⟩ | ⟨u, v, huv⟩)
      · exact ⟨[], t, by simp [ht]⟩
      · exact ⟨b :: u, v, by simp [huv]⟩
    · rintro ⟨u, v, huv⟩
      cases u with
      | nil => exact Or.inl ⟨v, by simpa using huv⟩
      | cons x xs =>
        simp only [List.cons_append, List.cons.injEq] at huv
        exact Or.inr ⟨xs, v, huv.2⟩

/-! ### Splitting into lines (Python's `code.split("\n")`) -/

/-- The model of Python `s.split("\n")`. -/
def splitNl : List Char → List (List Char)
  | [] => [[]]
  | c :: cs =>
    if c = '\n' then [] :: splitNl cs
    else
      match splitNl cs with
      | [] => [[c]]
      | l :: ls => (c :: l) :: ls

theorem splitNl_ne_nil (cs : List Char) : splitNl cs ≠ [] := by
  cases cs with
  | nil => simp [splitNl]
  | cons c cs =>
    unfold splitNl
    split
    · simp
    · split <;> simp

/-! ### A small regular-expression engine (Brzozowski derivatives)

Python `re` patterns used by the source are transliterated into this
datatype.  `rsearch` models the boolean outcome of `re.search`. -/

inductive Regex : Type where
  | emp : Regex
  | eps : Regex
  | cls : (Char → Bool) → Regex
  | cat : Regex → Regex → Regex
  | alt : Regex → Regex → Regex
  | star : Regex → Regex

namespace Regex

/-- Does the regex accept the empty word? -/
def nullable : Regex → Bool
  | emp => false
  | eps => true
  | cls _ => false
  | cat r1 r2 => nullable r1 && nullable r2
  | alt r1 r2 => nullable r1 || nullable r2
  | star _ => true

/-- Brzozowski derivative with respect to one character. -/
def derivR : Regex → Char → Regex
  | emp, _ => emp
  | eps, _ => emp
  | cls p, c => if p c then eps else emp
  | cat r1 r2, c =>
    if nullable r1 then alt (cat (derivR r1 c) r2) (derivR r2 c)
    else cat (derivR r1 c) r2
  | alt r1 r2, c => alt (derivR r1 c) (derivR r2 c)
  | star r, c => cat (derivR r c) (star r)

/-- Whole-word match (the language membership test). -/
def rmatch : Regex → List Char → Bool
  | r, [] => nullable r
  | r, c :: cs => rmatch (derivR r c) cs

/-- Does some initial segment of the word match (the boolean outcome of
Python `re.match`)? -/
def matchLead : Regex → List Char → Bool
  | r, [] => nullable r
  | r, c :: cs => nullable r || matchLead (derivR r c) cs

/-- Does the regex match somewhere inside the word (the boolean outcome
of Python `re.search`)? -/
def rsearch (r : Regex) : List Char → Bool
  | [] => nullable r
  | c :: cs => matchLead r (c :: cs) || rsearch r cs

theorem rmatch_nil (r : Regex) : rmatch r [] = nullable r := rfl

theorem rmatch_cons (r : Regex) (c : Char) (cs : List Char) :
    rmatch r (c :: cs) = rmatch (derivR r c) cs := rfl

theorem emp_rmatch (x : List Char) : rmatch emp x = false := by
  induction x <;> simp [rmatch, nullable, derivR, *]

theorem eps_rmatch_iff (x : List Char) : rmatch eps x = true ↔ x = [] := by
  cases x with
  | nil => simp [rmatch, nullable]
  | cons c cs => simp [rmatch, derivR, emp_rmatch]

theorem cls_rmatch_iff (p : Char → Bool) (x : List Char) :
    rmatch (cls p) x = true ↔ ∃ c, x = [c] ∧ p c = true := by
  cases x with
  | nil => simp [rmatch, nullable]
  | cons c cs =>
    rw [rmatch_cons]
    by_cases h : p c = true
    · rw [show derivR (cls p) c = eps by simp [derivR, h]]
      rw [eps_rmatch_iff]
      constructor
      · rintro rfl
        exact ⟨c, rfl, h⟩
      · rintro ⟨d, hd, _⟩
        injection hd
    · rw [show derivR (cls p) c = emp by simp [derivR, h]]
      simp only [emp_rmatch, Bool.false_eq_true, false_iff]
      rintro ⟨d, hd, hp⟩
      injection hd with h1 _
      rw [h1] at h
      exact absurd hp h

theorem alt_rmatch_iff (r1 r2 : Regex) (x : List Char) :
    rmatch (alt r1 r2) x = true ↔ rmatch r1 x = true ∨ rmatch r2 x = true := by
  induction x generalizing r1 r2 with
  | nil => simp [rmatch, nullable]
  | cons c cs ih => simp only [rmatch, derivR, ih]

theorem cat_rmatch_iff (r1 r2 : Regex) (x : List Char) :
    rmatch (cat r1 r2) x = true ↔
      ∃ t u : List Char, x = t ++ u ∧ rmatch r1 t = true ∧ rmatch r2 u = true := by
  induction x generalizing r1 r2 with
  | nil =>
    simp only [rmatch, nullable, Bool.and_eq_true]
    constructor
    · rintro ⟨h1, h2⟩
      exact ⟨[], [], rfl, h1, h2⟩
    · rintro ⟨t, u, htu, h1, h2⟩
      rcases List.append_eq_nil.mp htu.symm with ⟨rfl, rfl⟩
      exact ⟨h1, h2⟩
  | cons c cs ih =>
    rw [rmatch_cons]
    by_cases hn : nullable r1 = true
    · rw [show derivR (cat r1 r2) c = alt (cat (derivR r1 c) r2) (derivR r2 c) by
        simp [derivR, hn]]
      rw [alt_rmatch_iff, ih]
      constructor
      · rintro (⟨t, u, htu, h1, h2⟩ | h2)
        · exact ⟨c :: t, u, by rw [htu, List.cons_append],
            by rw [rmatch_cons]; exact h1, h2⟩
        · exact ⟨[], c :: cs, rfl, by rw [rmatch_nil]; exact hn,
            by rw [rmatch_cons]; exact h2⟩
      · rintro ⟨t, u, htu, h1, h2⟩
        cases t with
        | nil =>
          right
          simp only [List.nil_append] at htu
          rw [← rmatch_cons, htu]
          exact h2
        | cons d t' =>
          left
          injection htu with hcd htu'
          subst hcd
          exact ⟨t', u, htu', by rw [← rmatch_cons]; exact h1, h2⟩
    · rw [show derivR (cat r1 r2) c = cat (derivR r1 c) r2 by simp [derivR, hn]]
      rw [ih]
      constructor
      · rintro ⟨t, u, htu, h1, h2⟩
        exact ⟨c :: t, u, by rw [htu, List.cons_append],
          by rw [rmatch_cons]; exact h1, h2⟩
      · rintro ⟨t, u, htu, h1, h2⟩
        cases t with
        | nil =>
          simp only [List.nil_append] at htu
          rw [rmatch_nil] at h1
          exact absurd h1 hn
        | cons d t' =>
          injection htu with hcd htu'
          subst hcd
          exact ⟨t', u, htu', by rw [← rmatch_cons]; exact h1, h2⟩

theorem matchLead_iff (r : Regex) (x : List Char) :
    matchLead r x = true ↔ ∃ t u : List Char, x = t ++ u ∧ rmatch r t = true := by
  induction x generalizing r with
  | nil =>
    simp only [matchLead]
    constructor
    · intro h; exact ⟨[], [], rfl, h⟩
    · rintro ⟨t, u, htu, h1⟩
      rcases List.append_eq_nil.mp htu.symm with ⟨rfl, rfl⟩
      exact h1
  | cons c cs ih =>
    simp only [matchLead, Bool.or_eq_true, ih]
    constructor
    · rintro (h | ⟨t, u, htu, h1⟩)
      · exact ⟨[], c :: cs, rfl, h⟩
      · exact ⟨c :: t, u, by rw [htu, List.cons_append],
          by rw [rmatch_cons]; exact h1⟩
    · rintro ⟨t, u, htu, h1⟩
      cases t with
      | nil =>
        left
        rw [rmatch_nil] at h1
        exact h1
      | cons d t' =>
        right
        injection htu with hcd htu'
        subst hcd
        exact ⟨t', u, htu', by rw [← rmatch_cons]; exact h1⟩

theorem rsearch_iff (r : Regex) (x : List Char) :
    rsearch r x = true ↔ ∃ u m w : List Char, x = u ++ m ++ w ∧ rmatch r m = true := by
  induction x with
  | nil =>
    simp only [rsearch]
    constructor
    · intro h; exact ⟨[], [], [], rfl, h⟩
    · rintro ⟨u, m, w, humw, h1⟩
      rcases List.append_eq_nil.mp (List.append_eq_nil.mp humw.symm).1 with ⟨rfl, rfl⟩
      exact h1
  | cons c cs ih =>
    simp only [rsearch, Bool.or_eq_true, matchLead_iff, ih]
    constructor
    · rintro (⟨t, u, htu, h1⟩ | ⟨u, m, w, humw, h1⟩)
      · exact ⟨[], t, u, by simp [htu], h1⟩
      · exact ⟨c :: u, m, w, by simp [humw], h1⟩
    · rintro ⟨u, m, w, humw, h1⟩
      cases u with
      | nil =>
        left
        simp only [List.nil_append] at humw
        exact ⟨m, w, humw, h1⟩
      | cons d u' =>
        right
        simp only [List.cons_append, List.cons.injEq] at humw
        exact ⟨u', m, w, humw.2, h1⟩

end Regex

/-! ### Regex combinators used to transliterate the Python patterns -/

/-- The apostrophe character (written via its code point). -/
def apos : Char := Char.ofNat 39

/-- Exact single character. -/
def chr (c : Char) : Regex := Regex.cls (fun d => d == c)

/-- Case-insensitive single character (for patterns compiled with
`re.IGNORECASE`). -/
def chrCI (c : Char) : Regex := Regex.cls (fun d => lowC d == lowC c)

/-- Exact literal word. -/
def lit : List Char → Regex
  | [] => Regex.eps
  | c :: cs => Regex.cat (chr c) (lit cs)

/-- Case-insensitive literal word. -/
def litCI : List Char → Regex
  | [] => Regex.eps
  | c :: cs => Regex.cat (chrCI c) (litCI cs)

/-- Alternation of a list of regexes. -/
def ralt : List Regex → Regex
  | [] => Regex.emp
  | [r] => r
  | r :: rs => Regex.alt r (ralt rs)

/-- Concatenation of a list of regexes. -/
def rcat : List Regex → Regex
  | [] => Regex.eps
  | r :: rs => Regex.cat r (rcat rs)

/-- `r+`. -/
def plus (r : Regex) : Regex := Regex.cat r (Regex.star r)

/-- `n`-fold repetition. -/
def repN : Nat → Regex → Regex
  | 0, _ => Regex.eps
  | n + 1, r => Regex.cat r (repN n r)

/-- `r{n,}`. -/
def atLeast (n : Nat) (r : Regex) : Regex := Regex.cat (repN n r) (Regex.star r)

/-- `r?`. -/
def opt (r : Regex) : Regex := Regex.alt Regex.eps r

/-- The regex `.` — excludes `'\n'` unless the pattern was compiled with
`re.DOTALL`. -/
def anyCh (dotall : Bool) : Regex := Regex.cls (fun c => dotall || c != '\n')

/-- `\s*`. -/
def wsStar : Regex := Regex.star (Regex.cls wsCh)

/-- Characters matched by `["\']`. -/
def quoteCh (c : Char) : Bool := c == '"' || c == apos

/-- Characters matched by `[^"\'\n]`. -/
def nqCh (c : Char) : Bool := !(c == '"' || c == apos || c == '\n')

/-! ### Word-boundary search

The patterns `\beval\s*\(`, `\bos\.system\s*\(` and `\bDEBUG\b\s*=\s*True`
start with a word character, so their leading `\b` holds exactly when the
match starts at the beginning of the text or right after a non-word
character.  `rsearchWB` performs `re.search` under that reading. -/

def goWB (r : Regex) : Bool → List Char → Bool
  | prevWord, [] => !prevWord && r.nullable
  | prevWord, c :: cs =>
    (!prevWord && Regex.matchLead r (c :: cs)) || goWB r (wordCh c) cs

/-- `re.search` for a pattern with a leading `\b` followed by a word
character. -/
def rsearchWB (r : Regex) (s : List Char) : Bool := goWB r false s

/-! ### `re.finditer` (used by the hardcoded-secret rule)

Python scans left to right: at each position it emits the match found
there (if any) and resumes after its end; a zero-width match advances by
one character.  For the two hardcoded-secret patterns the match extent
at a given start is unique (the character class excludes the closing
quote), so taking the longest accepted length is faithful. -/

/-- Length of the longest initial segment accepted by `r`, if any. -/
def maxLenAux (r : Regex) : List Char → Option Nat
  | [] => if r.nullable then some 0 else none
  | c :: cs =>
    match maxLenAux (r.derivR c) cs with
    | some n => some (n + 1)
    | none => if r.nullable then some 0 else none

/-- Start offsets of the successive `re.finditer` matches.  The scan
consumes at least one character per step, so it is phrased with a fuel
argument (any fuel above the text length is enough). -/
def findIterGo (r : Regex) : Nat → List Char → Nat → List Nat
  | 0, _, _ => []
  | _ + 1, [], pos => if r.nullable then [pos] else []
  | fuel + 1, c :: cs, pos =>
    match maxLenAux r (c :: cs) with
    | none => findIterGo r fuel cs (pos + 1)
    | some 0 => pos :: findIterGo r fuel cs (pos + 1)
    | some (n + 1) => pos :: findIterGo r fuel (cs.drop n) (pos + 1 + n)

/-- All match start offsets of `re.finditer(pattern, code)`. -/
def findIter (r : Regex) (s : List Char) : List Nat :=
  findIterGo r (s.length + 1) s 0

/-! ### The data model -/

/-- One detected (or candidate) vulnerability.  Fields are optional
because externally supplied findings are arbitrary JSON objects whose
keys may be absent (`v.get(...)` in the source). -/
structure Finding where
  issue : Option String := none
  severity : Option String := none
  explanation : Option String := none
  line_numbers : Option (List Nat) := none
  fix_suggestion : Option String := none
  original_issue : Option String := none
  deriving Repr, DecidableEq

/-! ### The transliterated patterns of `run_static_analysis` -/

/-- `(SELECT|INSERT|UPDATE|DELETE)` under `re.IGNORECASE`. -/
def sqlKw : Regex :=
  ralt [litCI "SELECT".data, litCI "INSERT".data, litCI "UPDATE".data,
    litCI "DELETE".data]

/-- `execute\s*\(\s*f["\'].*?(SELECT|INSERT|UPDATE|DELETE)` -/
def sqlP1 (dotall : Bool) : Regex :=
  rcat [litCI "execute".data, wsStar, chr '(', wsStar, chrCI 'f',
    Regex.cls quoteCh, Regex.star (anyCh dotall), sqlKw]

/-- `execute\s*\(\s*["\'].*?\{.*?(SELECT|INSERT|UPDATE|DELETE)` -/
def sqlP2 (dotall : Bool) : Regex :=
  rcat [litCI "execute".data, wsStar, chr '(', wsStar, Regex.cls quoteCh,
    Regex.star (anyCh dotall), chr '\x7b', Regex.star (anyCh dotall), sqlKw]

/-- `(SELECT|INSERT|UPDATE|DELETE).*?\+.*?` -/
def sqlP3 (dotall : Bool) : Regex :=
  rcat [sqlKw, Regex.star (anyCh dotall), chr '+', Regex.star (anyCh dotall)]

/-- `(API_KEY|TOKEN|PASSWORD|SECRET)\s*=\s*["\'][^"\'\n]{10,}["\']` -/
def secretP1 : Regex :=
  rcat [ralt [litCI "API_KEY".data, litCI "TOKEN".data, litCI "PASSWORD".data,
      litCI "SECRET".data],
    wsStar, chr '=', wsStar, Regex.cls quoteCh, atLeast 10 (Regex.cls nqCh),
    Regex.cls quoteCh]

/-- `(api_key|token|password|secret)\s*:\s*["\'][^"\'\n]{10,}["\']` -/
def secretP2 : Regex :=
  rcat [ralt [litCI "api_key".data, litCI "token".data, litCI "password".data,
      litCI "secret".data],
    wsStar, chr ':', wsStar, Regex.cls quoteCh, atLeast 10 (Regex.cls nqCh),
    Regex.cls quoteCh]

/-- `eval\s*\(` (the pattern's leading `\b` is handled by `rsearchWB`). -/
def evalCallR : Regex := rcat [lit "eval".data, wsStar, chr '(']

/-- `child_process\.exec\s*\(` -/
def cpExecR : Regex := rcat [lit "child_process.exec".data, wsStar, chr '(']

/-- `os\.system\s*\(` (leading `\b` handled by `rsearchWB`). -/
def osSystemR : Regex := rcat [lit "os.system".data, wsStar, chr '(']

/-- `subprocess\.run\s*\(.*shell\s*=\s*True` -/
def subprocFullR : Regex :=
  rcat [lit "subprocess.run".data, wsStar, chr '(', Regex.star (anyCh false),
    lit "shell".data, wsStar, chr '=', wsStar, lit "True".data]

/-- `subprocess\.run\s*\(` -/
def subprocCallR : Regex := rcat [lit "subprocess.run".data, wsStar, chr '(']

/-- `requests\.get\s*\(` -/
def requestsGetR : Regex := rcat [lit "requests.get".data, wsStar, chr '(']

/-- `user[_\w]*url|url` -/
def userUrlR : Regex :=
  Regex.alt
    (rcat [lit "user".data,
      Regex.star (Regex.cls (fun c => c == '_' || wordCh c)), lit "url".data])
    (lit "url".data)

/-- `pickle\.loads\s*\(` -/
def pickleLoadsR : Regex := rcat [lit "pickle.loads".data, wsStar, chr '(']

/-- `pickle\.load\s*\(` -/
def pickleLoadR : Regex := rcat [lit "pickle.load".data, wsStar, chr '(']

/-- `hashlib\.md5\s*\(` -/
def hashlibMd5R : Regex := rcat [lit "hashlib.md5".data, wsStar, chr '(']

/-- `DEBUG\s*=\s*True`; the source pattern is `\bDEBUG\b\s*=\s*True`: the
leading `\b` is handled by `rsearchWB` and the one after `DEBUG` is
subsumed because every continuation char (`\s` or `=`) is a non-word
character. -/
def debugTrueR : Regex :=
  rcat [lit "DEBUG".data, wsStar, chr '=', wsStar, lit "True".data]

/-- `app\.run\(.*debug\s*=\s*True` -/
def appRunDebugR : Regex :=
  rcat [lit "app.run(".data, Regex.star (anyCh false), lit "debug".data,
    wsStar, chr '=', wsStar, lit "True".data]

/-- `@app\.route\(.*methods=\[.*'POST'.*\)` -/
def csrfRouteR : Regex :=
  rcat [lit "@app.route(".data, Regex.star (anyCh false), lit "methods=[".data,
    Regex.star (anyCh false), lit (apos :: "POST".data ++ [apos]),
    Regex.star (anyCh false), chr ')']

/-- `csrf|csrf_token|csrf_protect` -/
def csrfKwR : Regex :=
  ralt [litCI "csrf".data, litCI "csrf_token".data, litCI "csrf_protect".data]

/-- `logging\.info\s*\(.*password` -/
def loggingInfoR : Regex :=
  rcat [litCI "logging.info".data, wsStar, chr '(', Regex.star (anyCh false),
    litCI "password".data]

/-- `logging\.debug\s*\(.*api[_ ]?token` -/
def loggingDebugR : Regex :=
  rcat [litCI "logging.debug".data, wsStar, chr '(', Regex.star (anyCh false),
    litCI "api".data, opt (Regex.cls (fun c => c == '_' || c == ' ')),
    litCI "token".data]

/-- `open\s*\(\s*f["\'][^\n"\']*\{[^}]+\}[^\n"\']*["\']\s*,` -/
def pathP1 : Regex :=
  rcat [litCI "open".data, wsStar, chr '(', wsStar, chrCI 'f',
    Regex.cls quoteCh, Regex.star (Regex.cls nqCh), chr '\x7b',
    plus (Regex.cls (fun c => c != '\x7d')), chr '\x7d',
    Regex.star (Regex.cls nqCh), Regex.cls quoteCh, wsStar, chr ',']

/-- `open\s*\(\s*["\'][^\n"\']*["\']\s*\+\s*\w+\s*,` -/
def pathP2 : Regex :=
  rcat [litCI "open".data, wsStar, chr '(', wsStar, Regex.cls quoteCh,
    Regex.star (Regex.cls nqCh), Regex.cls quoteCh, wsStar, chr '+', wsStar,
    plus (Regex.cls wordCh), wsStar, chr ',']

/-- `@app\.route\([^)]*<\w+>[^)]*\)` -/
def idorRouteR : Regex :=
  rcat [lit "@app.route(".data, Regex.star (Regex.cls (fun c => c != ')')),
    chr '<', plus (Regex.cls wordCh), chr '>',
    Regex.star (Regex.cls (fun c => c != ')')), chr ')']

/-- `auth|login|required_role|current_user|authorize|permission` -/
def authKwR : Regex :=
  ralt [litCI "auth".data, litCI "login".data, litCI "required_role".data,
    litCI "current_user".data, litCI "authorize".data, litCI "permission".data]

/-! ### The Pattern Matcher (`run_static_analysis`) -/

/-- Line numbers (1-based) of the lines satisfying `f`
(`[i+1 for i, line in enumerate(lines) if f(line)]`). -/
def linesWhere (f : List Char → Bool) (lines : List (List Char)) : List Nat :=
  (lines.enum.filter (fun p => f p.2)).map (fun p => p.1 + 1)

/-- The finding built by the SQL-injection rule. -/
def sqlFinding (ls : List Nat) : Finding :=
  { issue := some "SQL Injection", severity := some "critical",
    explanation := some "Dynamic SQL query with string concatenation detected.",
    line_numbers := some ls,
    fix_suggestion := some "Use prepared statements or parameterized queries." }

/-- The `for pattern in sql_injection_patterns` loop: document search
with `re.IGNORECASE | re.DOTALL`, per-line search with `re.IGNORECASE`
only, emit and `break` on the first pattern with a non-empty line list. -/
def sqlLoop (cs : List Char) (lines : List (List Char)) :
    List (Bool → Regex) → List Finding
  | [] => []
  | p :: rest =>
    if Regex.rsearch (p true) cs then
      let ml := linesWhere (fun l => Regex.rsearch (p false) l) lines
      if ml ≠ [] then [sqlFinding (ml.take 5)] else sqlLoop cs lines rest
    else sqlLoop cs lines rest

/-- The finding built by the hardcoded-secret rule. -/
def secretFinding (ls : List Nat) : Finding :=
  { issue := some "Hardcoded Secret", severity := some "critical",
    explanation := some "Hardcoded credentials found in source code.",
    line_numbers := some ls,
    fix_suggestion := some "Use environment variables or secret managers." }

/-- Line number of a match offset:
`code[:match.start()].count('\n') + 1`. -/
def lineOfOffset (cs : List Char) (st : Nat) : Nat := (cs.take st).count '\n' + 1

/-- The `for pattern in secret_patterns` loop (`re.finditer`, first three
matches, `break` once a pattern matched). -/
def secretLoop (cs : List Char) : List Regex → List Finding
  | [] => []
  | p :: rest =>
    let ms := findIter p cs
    if ms ≠ [] then
      let ml := (ms.take 3).map (lineOfOffset cs)
      if ml ≠ [] then [secretFinding ml] else secretLoop cs rest
    else secretLoop cs rest

/-- A rule of the shape: document-level test, then per-line numbers, then
emit one finding capped at `cap` line numbers — skipped when the line
list is empty. -/
def simpleRule (docHit : Bool) (ml : List Nat) (cap : Nat) (f : Finding) :
    List Finding :=
  if docHit then (if ml ≠ [] then [{ f with line_numbers := some (ml.take cap) }] else [])
  else []

/-- The Pattern Matcher: transliteration of `run_static_analysis` of
`FastApi/app/core/Agents/security_agent.py`.  Findings are appended in
the source's rule order. -/
def run_static_analysis (code : String) : List Finding :=
  let cs := code.data
  let lines := splitNl cs
  sqlLoop cs lines [sqlP1, sqlP2, sqlP3]
  ++ secretLoop cs [secretP1, secretP2]
  ++ simpleRule (rsearchWB evalCallR cs)
      (linesWhere (fun l => rsearchWB evalCallR l) lines) 3
      { issue := some "Arbitrary Code Execution (eval)", severity := some "critical",
        explanation := some "Use of eval() allows arbitrary code execution.",
        fix_suggestion := some "Avoid eval(). Use JSON.parse or safe parsing libraries." }
  ++ simpleRule (Regex.rsearch cpExecR cs)
      (linesWhere (occursIn "child_process.exec".data) lines) 3
      { issue := some "Command Injection (exec)", severity := some "critical",
        explanation := some "child_process.exec can allow remote command execution.",
        fix_suggestion := some "Use execFile or safe command execution." }
  ++ simpleRule (rsearchWB osSystemR cs)
      (linesWhere (fun l => rsearchWB osSystemR l) lines) 3
      { issue := some "Command Injection (os.system)", severity := some "high",
        explanation := some "os.system() executes shell commands unsafely.",
        fix_suggestion := some "Use subprocess.run with argument lists." }
  ++ simpleRule (Regex.rsearch subprocFullR cs)
      (linesWhere (fun l => Regex.rsearch subprocCallR l) lines) 3
      { issue := some "Command Injection (subprocess)", severity := some "critical",
        explanation := some "subprocess.run called with shell=True can allow command injection.",
        fix_suggestion := some "Use subprocess.run with a list of args and shell=False." }
  ++ simpleRule (Regex.rsearch requestsGetR cs && Regex.rsearch userUrlR cs)
      (linesWhere (occursIn "requests.get".data) lines) 3
      { issue := some "SSRF", severity := some "high",
        explanation := some "External HTTP request using user-controlled URL may lead to SSRF.",
        fix_suggestion := some "Validate and whitelist remote URLs before fetching." }
  ++ simpleRule (Regex.rsearch (litCI "innerHTML".data) cs)
      (linesWhere (occursIn "innerHTML".data) lines) 3
      { issue := some "Cross-Site Scripting (XSS)", severity := some "high",
        explanation := some "Direct assignment to innerHTML with user data can cause XSS.",
        fix_suggestion := some "Use textContent or proper escaping." }
  ++ simpleRule (Regex.rsearch pickleLoadsR cs || Regex.rsearch pickleLoadR cs)
      (linesWhere (occursIn "pickle".data) lines) 3
      { issue := some "Insecure Deserialization (pickle)", severity := some "critical",
        explanation := some "Deserializing untrusted data with pickle can execute arbitrary code.",
        fix_suggestion := some "Avoid pickle.loads on untrusted input; use safe formats." }
  ++ simpleRule (Regex.rsearch hashlibMd5R cs || Regex.rsearch (litCI "MD5".data) cs)
      (linesWhere (fun l => occursIn "md5".data (lowL l)) lines) 3
      { issue := some "Weak Cryptography (MD5)", severity := some "medium",
        explanation := some "MD5 is weak for password hashing.",
        fix_suggestion := some "Use bcrypt or argon2 for password hashing." }
  ++ simpleRule (rsearchWB debugTrueR cs || Regex.rsearch appRunDebugR cs)
      (linesWhere (fun l => occursIn "DEBUG".data l || occursIn "debug=".data l) lines) 3
      { issue := some "Debug mode enabled", severity := some "high",
        explanation := some "Application running with debug mode enabled exposes internals.",
        fix_suggestion := some "Disable debug mode in production." }
  ++ simpleRule
      (Regex.rsearch csrfRouteR cs && !(Regex.rsearch csrfKwR cs))
      (linesWhere (occursIn "@app.route".data) lines) 3
      { issue := some "Missing CSRF Protection", severity := some "medium",
        explanation := some "POST endpoint without CSRF protection.",
        fix_suggestion := some "Implement CSRF tokens or same-site cookies." }
  ++ simpleRule (Regex.rsearch loggingInfoR cs || Regex.rsearch loggingDebugR cs)
      (linesWhere (fun l => occursIn "logging.".data (lowL l)) lines) 3
      { issue := some "Sensitive Data Logging", severity := some "medium",
        explanation := some "Logging sensitive information like passwords or tokens.",
        fix_suggestion := some "Avoid logging secrets; mask or remove sensitive fields." }
  ++ pathLoop cs lines [pathP1, pathP2]
  ++ simpleRule
      (Regex.rsearch idorRouteR cs && !(Regex.rsearch authKwR cs))
      (linesWhere (occursIn "@app.route".data) lines) 3
      { issue := some "IDOR (missing authorization)", severity := some "high",
        explanation := some "Endpoint exposes resource identifiers without authorization checks (IDOR).",
        fix_suggestion := some "Enforce authorization checks for resource access." }
where
  /-- The finding built by the path-traversal rule. -/
  pathFinding (ls : List Nat) : Finding :=
    { issue := some "Path Traversal", severity := some "high",
      explanation := some "File path built from untrusted input may allow path traversal (e.g., ../) to access arbitrary files.",
      line_numbers := some ls,
      fix_suggestion := some "Validate and normalize file paths, enforce an allowlist, and prevent directory traversal (e.g., reject '..')." }
  /-- The `for pattern in path_traversal_patterns` loop (both the
  document and line searches use `re.IGNORECASE`, no DOTALL). -/
  pathLoop (cs : List Char) (lines : List (List Char)) : List Regex → List Finding
    | [] => []
    | p :: rest =>
      if Regex.rsearch p cs then
        let ml := linesWhere (fun l => Regex.rsearch p l) lines
        if ml ≠ [] then [pathFinding (ml.take 3)] else pathLoop cs lines rest
      else pathLoop cs lines rest

/-! ### The Corroboration Filter (`verify_ai_finding`) -/

/-- `f\s*".*select` under `re.IGNORECASE`. -/
def fstrSelectR : Regex :=
  rcat [chrCI 'f', wsStar, chr '"', Regex.star (anyCh false), litCI "select".data]

/-- `\+\s*['\"]` -/
def plusQuoteR : Regex := rcat [chr '+', wsStar, Regex.cls quoteCh]

/-- `format\s*\(` -/
def formatCallR : Regex := rcat [lit "format".data, wsStar, chr '(']

/-- `subprocess\.run\s*\(|os\.system\s*\(|child_process\.exec` -/
def subprocOrOsR : Regex :=
  ralt [rcat [lit "subprocess.run".data, wsStar, chr '('],
    rcat [lit "os.system".data, wsStar, chr '('],
    lit "child_process.exec".data]

/-- `(api_key|token|password|secret)\s*=\s*["\']` under `re.IGNORECASE`. -/
def secretAssignR : Regex :=
  rcat [ralt [litCI "api_key".data, litCI "token".data, litCI "password".data,
      litCI "secret".data],
    wsStar, chr '=', wsStar, Regex.cls quoteCh]

/-- The generic categories that are rejected unconditionally. -/
def genericRejectKws : List String :=
  ["missing_input_validation", "missing input validation",
   "missing authentication", "missing_authentication",
   "weak_password_hashing", "weak password"]

/-- The Corroboration Filter: transliteration of `verify_ai_finding`.
Returns `true` iff the externally supplied finding is corroborated by
the code text. -/
def verify_ai_finding (v : Finding) (code : String) : Bool :=
  let issue := (lowS (v.issue.getD "")).data
  let txt := (lowS code).data
  let cs := code.data
  if genericRejectKws.any (fun k => occursIn k.data issue) then false
  else if occursIn "sql".data issue || occursIn "sql_injection".data issue then
    Regex.rsearch fstrSelectR cs || Regex.rsearch plusQuoteR cs ||
      Regex.rsearch formatCallR cs
  else if occursIn "command".data issue || occursIn "subprocess".data issue ||
      occursIn "os.system".data issue then
    Regex.rsearch subprocOrOsR cs
  else if occursIn "pickle".data issue || occursIn "deserial".data issue then
    occursIn "pickle".data txt
  else if occursIn "eval".data issue || occursIn "arbitrary code".data issue then
    occursIn "eval(".data txt
  else if occursIn "xss".data issue || occursIn "innerhtml".data issue then
    occursIn "innerhtml".data txt
  else if occursIn "ssrf".data issue then
    occursIn "requests.get".data txt || occursIn "requests.post".data txt
  else if occursIn "hardcod".data issue || occursIn "secret".data issue ||
      occursIn "api_key".data issue then
    Regex.rsearch secretAssignR cs
  else if occursIn "idor".data issue then
    Regex.rsearch idorRouteR cs
  else if occursIn "csrf".data issue then
    Regex.rsearch csrfRouteR cs
  else if occursIn "path".data issue &&
      (occursIn "travers".data issue || occursIn "traversal".data issue) then
    Regex.rsearch pathP1 cs || Regex.rsearch pathP2 cs
  else false

/-! ### The Merger -/

/-- The merge loop over the externally supplied findings: skip an
external finding whose lowercased issue text was already seen, append it
when the Corroboration Filter accepts it (also recording its issue
text), and drop it otherwise. -/
def mergeGo (code : String) : List Finding → List Finding → List String → List Finding
  | [], acc, _ => acc
  | v :: rest, acc, seen =>
    let issue_name := lowS (v.issue.getD "")
    if issue_name ∈ seen then mergeGo code rest acc seen
    else if verify_ai_finding v code then
      mergeGo code rest (acc ++ [v]) (seen ++ [issue_name])
    else mergeGo code rest acc seen

/-- The Merger: transliteration of the
`all_vulns = static_vulns.copy(); ... for v in ai_vulns: ...` block of
`analyze_code_security` (the seen set is modelled as a list, only
membership is used). -/
def mergeVulns (static_vulns ai_vulns : List Finding) (code : String) : List Finding :=
  mergeGo code ai_vulns static_vulns
    (static_vulns.map (fun v => lowS (v.issue.getD "")))

/-! ### The Canonicalizer (`canonicalize_issue`) -/

/-- The ordered keyword rules of the `if/elif` chain of
`canonicalize_issue`, as a first-match-wins table over the lowercased
issue text: each entry is the guard of one `if` and the canonical id it
returns. -/
def canonRuleTable : List ((List Char → Bool) × List Char) :=
  [(fun s => occursIn "sql".data s && occursIn "inject".data s,
    "sql_injection".data),
   (fun s => occursIn "command".data s && occursIn "inject".data s,
    "command_injection".data),
   (fun s => occursIn "subprocess".data s || occursIn "os.system".data s ||
      occursIn "child_process.exec".data s,
    "command_injection".data),
   (fun s => occursIn "hardcod".data s || occursIn "api key".data s ||
      occursIn "api_token".data s || occursIn "api token".data s ||
      occursIn "secret".data s,
    "hardcoded_secrets".data),
   (fun s => occursIn "path traversal".data s || occursIn "path_traversal".data s,
    "path_traversal".data),
   (fun s => occursIn "deserial".data s || occursIn "pickle".data s ||
      occursIn "unsafe deserial".data s,
    "insecure_deserialization".data),
   (fun s => occursIn "md5".data s || occursIn "weak crypt".data s ||
      occursIn "weak cryptography".data s,
    "weak_crypto".data),
   (fun s => occursIn "debug".data s &&
      (occursIn "mode".data s || occursIn "debug".data s),
    "debug_enabled".data),
   (fun s => occursIn "xss".data s || occursIn "innerhtml".data s ||
      occursIn "inner html".data s,
    "xss_vulnerability".data),
   (fun s => occursIn "ssrf".data s || occursIn "requests.get".data s ||
      occursIn "user_url".data s,
    "ssrf_vulnerability".data),
   (fun s => occursIn "idor".data s || occursIn "insecure direct object".data s,
    "idor_vulnerability".data),
   (fun s => occursIn "sensitive".data s &&
      (occursIn "log".data s || occursIn "logging".data s ||
        occursIn "password".data s),
    "sensitive_data_exposure".data),
   (fun s => occursIn "csrf".data s,
    "csrf_vulnerability".data),
   (fun s => occursIn "eval".data s || occursIn "arbitrary code".data s ||
      occursIn "code execution".data s,
    "command_injection".data)]

/-- The ordered keyword rules of `canonicalize_issue` (input is the
lowercased issue text): the first matching rule's id, `none` when no
rule matches. -/
def canonRules (s : List Char) : Option (List Char) :=
  (canonRuleTable.find? (fun r => r.1 s)).map (fun r => r.2)

/-- `re.sub(r"[^a-z0-9]+", "_", s)`: each maximal run of characters
outside `[a-z0-9]` becomes a single underscore (`inRun` records whether
we are inside such a run). -/
def subRunsGo (inRun : Bool) : List Char → List Char
  | [] => []
  | c :: cs =>
    if isLowerAlnum c then c :: subRunsGo false cs
    else if inRun then subRunsGo true cs
    else '_' :: subRunsGo true cs

/-- `.strip("_")`. -/
def stripUnd (l : List Char) : List Char :=
  ((l.dropWhile (· == '_')).reverse.dropWhile (· == '_')).reverse

/-- `re.sub(r"[^a-z0-9]+", "_", s).strip("_")`. -/
def slug (l : List Char) : List Char := stripUnd (subRunsGo false l)

/-- The Canonicalizer on character lists: keyword rules first, then the
slug fallback, returning the (lowercased) input itself when the slug is
empty (`return norm or s`). -/
def canonL (issue : List Char) : List Char :=
  let s := lowL issue
  match canonRules s with
  | some id => id
  | none => let norm := slug s; if norm = [] then s else norm

/-- The Canonicalizer: transliteration of `canonicalize_issue`. -/
def canonicalize_issue (issue : String) : String := ⟨canonL issue.data⟩

/-- The post-merge normalisation pass: every finding gains
`original_issue` and has `issue` replaced by its canonical form. -/
def canonicalizePass (vulns : List Finding) : List Finding :=
  vulns.map (fun v =>
    let orig := v.issue.getD ""
    { v with original_issue := some orig,
             issue := some (canonicalize_issue orig) })

/-- Merger followed by the canonicalisation pass (the deterministic part
of `analyze_code_security` acting on the finding lists). -/
def mergedCanonical (static_vulns ai_vulns : List Finding) (code : String) :
    List Finding :=
  canonicalizePass (mergeVulns static_vulns ai_vulns code)

/-! ### The Scorer

All the floating point values involved (`80.0, 55.0, 40.0, 15.0`, their
sums bounded by a few thousand, and `100.0` minus such sums) are exactly
representable integers, so the score arithmetic is modelled with `Nat`
and `Int`. -/

/-- `severity_penalty.get(key, 15.0)` for the table
`{"critical": 80.0, "high": 55.0, "medium": 40.0, "low": 15.0}`. -/
def severityPenaltyGet (s : String) : Nat :=
  if s = "critical" then 80
  else if s = "high" then 55
  else if s = "medium" then 40
  else if s = "low" then 15
  else 15

/-- `(v.get("severity") or "low")`: a missing or empty severity falls
back to `"low"` (Python `or` on a falsy value). -/
def orLow : Option String → String
  | none => "low"
  | some s => if s = "" then "low" else s

/-- The penalty contributed by one finding. -/
def findingPenalty (v : Finding) : Nat :=
  severityPenaltyGet (lowS (orLow v.severity))

/-- `total_penalty = sum(...)`. -/
def totalPenalty (vs : List Finding) : Nat := (vs.map findingPenalty).sum

/-- `security_score = max(0.0, 100.0 - total_penalty)`. -/
def securityScore (vs : List Finding) : Int :=
  max 0 (100 - (totalPenalty vs : Int))

/-- The risk label derived from the security score. -/
def riskLevel (vs : List Finding) : String :=
  if securityScore vs ≥ 80 then "low"
  else if securityScore vs ≥ 60 then "medium"
  else if securityScore vs ≥ 40 then "high"
  else "critical"

/-- The Scorer's output. -/
structure ScoreResult where
  security_score : Int
  risk_score : Nat
  risk_level : String
  deriving Repr, DecidableEq

/-- The Scorer: transliteration of the score block of
`analyze_code_security` (`risk_score` is the total penalty, kept for
backwards compatibility). -/
def scoreOf (vs : List Finding) : ScoreResult :=
  { security_score := securityScore vs,
    risk_score := totalPenalty vs,
    risk_level := riskLevel vs }

/-! ### Properties of the slug fallback (towards C3)

`goodSlug allowU m` is the shape invariant of slug outputs: all
characters in `[a-z0-9_]`, no two consecutive underscores, and a leading
underscore only when `allowU` is true. -/

/-- Characters allowed in a slug (`[a-z0-9_]`). -/
def slugCh (c : Char) : Bool := isLowerAlnum c || c == '_'

def goodSlug : Bool → List Char → Bool
  | _, [] => true
  | allowU, c :: cs =>
    if isLowerAlnum c then goodSlug true cs
    else if c == '_' then allowU && goodSlug false cs
    else false

theorem alnum_ne_und {c : Char} (hc : isLowerAlnum c = true) :
    (c == '_') = false := by
  by_cases h : c = '_'
  · subst h
    exact absurd hc (by decide)
  · simp [h]

theorem goodSlug_mono {m : List Char} (h : goodSlug false m = true) :
    goodSlug true m = true := by
  cases m with
  | nil => rfl
  | cons c cs =>
    unfold goodSlug at h ⊢
    split_ifs at h ⊢ <;> simp_all

theorem goodSlug_subRunsGo (l : List Char) :
    goodSlug true (subRunsGo false l) = true ∧
      goodSlug false (subRunsGo true l) = true := by
  induction l with
  | nil => exact ⟨rfl, rfl⟩
  | cons c cs ih =>
    obtain ⟨ihF, ihT⟩ := ih
    by_cases h1 : isLowerAlnum c = true
    · constructor
      · show goodSlug true (subRunsGo false (c :: cs)) = true
        unfold subRunsGo
        rw [if_pos h1]
        unfold goodSlug
        rw [if_pos h1]
        exact ihF
      · show goodSlug false (subRunsGo true (c :: cs)) = true
        unfold subRunsGo
        rw [if_pos h1]
        unfold goodSlug
        rw [if_pos h1]
        exact ihF
    · constructor
      · show goodSlug true (subRunsGo false (c :: cs)) = true
        unfold subRunsGo
        rw [if_neg h1, if_neg (by simp)]
        unfold goodSlug
        rw [if_neg (by decide), if_pos (by decide)]
        simpa using ihT
      · show goodSlug false (subRunsGo true (c :: cs)) = true
        unfold subRunsGo
        rw [if_neg h1, if_pos rfl]
        exact ihT

theorem goodSlug_all {m : List Char} :
    ∀ {b : Bool}, goodSlug b m = true → m.all slugCh = true := by
  induction m with
  | nil => intro b _; rfl
  | cons c cs ih =>
    intro b h
    unfold goodSlug at h
    split_ifs at h with h1 h2
    · rw [List.all_cons]
      rw [show slugCh c = true by simp [slugCh, h1]]
      simpa using ih h
    · rw [Bool.and_eq_true] at h
      rw [List.all_cons]
      rw [show slugCh c = true by simp [slugCh, h2]]
      simpa using ih h.2

theorem goodSlug_of_append {m1 m2 : List Char} :
    ∀ b, goodSlug b (m1 ++ m2) = true → goodSlug b m1 = true := by
  induction m1 with
  | nil => intro b _; rfl
  | cons c cs ih =>
    intro b h
    rw [List.cons_append] at h
    unfold goodSlug at h ⊢
    split_ifs at h ⊢ with h1 h2
    · exact ih true h
    · rw [Bool.and_eq_true] at h ⊢
      exact ⟨h.1, ih false h.2⟩

theorem goodSlug_dropWhile {m : List Char} (h : goodSlug true m = true) :
    goodSlug true (m.dropWhile (· == '_')) = true := by
  cases m with
  | nil => rfl
  | cons c cs =>
    rw [List.dropWhile_cons]
    by_cases hc : (c == '_') = true
    · rw [if_pos hc]
      have hc' : c = '_' := eq_of_beq hc
      subst hc'
      unfold goodSlug at h
      rw [if_neg (by decide), if_pos (by decide)] at h
      have hcs : goodSlug false cs = true := by simpa using h
      cases cs with
      | nil => rfl
      | cons d ds =>
        rw [List.dropWhile_cons]
        unfold goodSlug at hcs
        split_ifs at hcs with hd1 hd2
        · rw [if_neg (by simp [alnum_ne_und hd1])]
          unfold goodSlug
          rw [if_pos hd1]
          exact hcs
        · simp at hcs
    · rw [if_neg hc]
      exact h

theorem goodSlug_rdropWhile {m : List Char} (h : goodSlug true m = true) :
    goodSlug true (List.rdropWhile (· == '_') m) = true := by
  obtain ⟨t, ht⟩ := List.rdropWhile_prefix (l := m) (p := (· == '_'))
  exact goodSlug_of_append true (by rw [ht]; exact h)

theorem stripUnd_eq_rdrop (l : List Char) :
    stripUnd l = List.rdropWhile (· == '_') (l.dropWhile (· == '_')) := rfl

theorem goodSlug_stripUnd {m : List Char} (h : goodSlug true m = true) :
    goodSlug true (stripUnd m) = true := by
  rw [stripUnd_eq_rdrop]
  exact goodSlug_rdropWhile (goodSlug_dropWhile h)

/-- The slug of any input satisfies the shape invariant. -/
theorem goodSlug_slug (l : List Char) : goodSlug true (slug l) = true :=
  goodSlug_stripUnd (goodSlug_subRunsGo l).1

/-- `re.sub` is the identity on lists satisfying the shape invariant. -/
theorem subRunsGo_of_goodSlug (m : List Char) :
    (goodSlug false m = true → subRunsGo true m = m ∧ subRunsGo false m = m) ∧
      (goodSlug true m = true → subRunsGo false m = m) := by
  induction m with
  | nil => exact ⟨fun _ => ⟨rfl, rfl⟩, fun _ => rfl⟩
  | cons c cs ih =>
    obtain ⟨ihF, ihT⟩ := ih
    constructor
    · intro h
      unfold goodSlug at h
      split_ifs at h with h1 h2
      · constructor
        · show subRunsGo true (c :: cs) = c :: cs
          unfold subRunsGo
          rw [if_pos h1, ihT h]
        · show subRunsGo false (c :: cs) = c :: cs
          unfold subRunsGo
          rw [if_pos h1, ihT h]
      · simp at h
    · intro h
      unfold goodSlug at h
      split_ifs at h with h1 h2
      · show subRunsGo false (c :: cs) = c :: cs
        unfold subRunsGo
        rw [if_pos h1, ihT h]
      · have h' : goodSlug false cs = true := by simpa using h
        have hc' : c = '_' := eq_of_beq h2
        subst hc'
        show subRunsGo false ('_' :: cs) = '_' :: cs
        unfold subRunsGo
        rw [if_neg (show ¬ (isLowerAlnum '_' = true) by decide)]
        simp only [Bool.false_eq_true, if_false]
        rw [(ihF h').1]

theorem dropWhile_und_idem (l : List Char) :
    (l.dropWhile (· == '_')).dropWhile (· == '_') = l.dropWhile (· == '_') :=
  List.dropWhile_idempotent _ _

theorem stripUnd_idem (l : List Char) : stripUnd (stripUnd l) = stripUnd l := by
  rw [stripUnd_eq_rdrop, stripUnd_eq_rdrop]
  have hgoal : (List.rdropWhile (· == '_') (l.dropWhile (· == '_'))).dropWhile
      (· == '_') = List.rdropWhile (· == '_') (l.dropWhile (· == '_')) := by
    cases hnil : List.rdropWhile (· == '_') (l.dropWhile (· == '_')) with
    | nil => rfl
    | cons c cs =>
      obtain ⟨t, ht⟩ :=
        List.rdropWhile_prefix (l := l.dropWhile (· == '_')) (p := (· == '_'))
      rw [List.dropWhile_cons]
      have hcx : l.dropWhile (· == '_') = c :: (cs ++ t) := by
        rw [← ht, hnil]
        simp
      have hpc : ¬ ((c == '_') = true) := by
        intro hpc
        have hx := dropWhile_und_idem l
        rw [hcx, List.dropWhile_cons, if_pos hpc] at hx
        have hlen := congrArg List.length hx
        have hle := (List.dropWhile_sublist (l := cs ++ t) (· == '_')).length_le
        simp only [List.length_cons] at hlen
        omega
      rw [if_neg hpc]
  rw [hgoal, List.rdropWhile_idempotent]

theorem slug_idem (l : List Char) : slug (slug l) = slug l := by
  show stripUnd (subRunsGo false (slug l)) = slug l
  rw [(subRunsGo_of_goodSlug (slug l)).2 (goodSlug_slug l)]
  show stripUnd (stripUnd (subRunsGo false l)) = slug l
  rw [stripUnd_idem]
  rfl

theorem mem_subRunsGo {c : Char} (hc : isLowerAlnum c = true) :
    ∀ (b : Bool) (l : List Char), c ∈ l → c ∈ subRunsGo b l := by
  intro b l
  induction l generalizing b with
  | nil => intro h; simp at h
  | cons d ds ih =>
    intro hmem
    unfold subRunsGo
    rcases List.mem_cons.mp hmem with rfl | hmem'
    · rw [if_pos hc]
      exact List.mem_cons_self _ _
    · split_ifs with h1 h2
      · exact List.mem_cons_of_mem _ (ih false hmem')
      · exact ih true hmem'
      · exact List.mem_cons_of_mem _ (ih true hmem')

theorem mem_dropWhile_und {c : Char} (hc : (c == '_') = false) :
    ∀ {l : List Char}, c ∈ l → c ∈ l.dropWhile (· == '_') := by
  intro l
  induction l with
  | nil => intro h; simp at h
  | cons d ds ih =>
    intro h
    rw [List.dropWhile_cons]
    split_ifs with hd
    · rcases List.mem_cons.mp h with rfl | h'
      · rw [hd] at hc
        cases hc
      · exact ih h'
    · exact h

theorem mem_stripUnd_of {c : Char} {l : List Char} (hc : (c == '_') = false)
    (h : c ∈ l) : c ∈ stripUnd l := by
  unfold stripUnd
  rw [List.mem_reverse]
  apply mem_dropWhile_und hc
  rw [List.mem_reverse]
  exact mem_dropWhile_und hc h

theorem slug_ne_nil_of_alnum {l : List Char} (h : l.any isLowerAlnum = true) :
    slug l ≠ [] := by
  rw [List.any_eq_true] at h
  obtain ⟨c, hcl, hc⟩ := h
  have h1 : c ∈ subRunsGo false l := mem_subRunsGo hc false l hcl
  have h2 : c ∈ stripUnd (subRunsGo false l) := mem_stripUnd_of (alnum_ne_und hc) h1
  exact List.ne_nil_of_mem h2

theorem slug_all_slugCh (l : List Char) : (slug l).all slugCh = true :=
  goodSlug_all (goodSlug_slug l)

theorem lowC_eq_self_of_slugCh {c : Char} (h : slugCh c = true) : lowC c = c := by
  unfold slugCh at h
  rw [Bool.or_eq_true] at h
  rcases h with h1 | h2
  · exact lowC_eq_self_of_lowerAlnum _ h1
  · rw [eq_of_beq h2]
    exact lowC_underscore

theorem lowL_slug (l : List Char) : lowL (slug l) = slug l := by
  have hall := slug_all_slugCh l
  rw [List.all_eq_true] at hall
  unfold lowL
  conv_rhs => rw [← List.map_id (slug l)]
  apply List.map_congr_left
  intro c hcmem
  exact lowC_eq_self_of_slugCh (hall c hcmem)

/-- The closed set of canonical ids produced by the keyword rules. -/
def canonIdList : List (List Char) :=
  ["sql_injection".data, "command_injection".data, "hardcoded_secrets".data,
   "path_traversal".data, "insecure_deserialization".data, "weak_crypto".data,
   "debug_enabled".data, "xss_vulnerability".data, "ssrf_vulnerability".data,
   "idor_vulnerability".data, "sensitive_data_exposure".data,
   "csrf_vulnerability".data]

theorem canonRules_mem {s id : List Char} (h : canonRules s = some id) :
    id ∈ canonIdList := by
  unfold canonRules at h
  rw [Option.map_eq_some'] at h
  obtain ⟨r, hr, hid⟩ := h
  subst hid
  exact (show ∀ r ∈ canonRuleTable, r.2 ∈ canonIdList by decide) r
    (List.mem_of_find?_eq_some hr)

theorem canonL_id_fixed {id : List Char} (h : id ∈ canonIdList) :
    canonL id = id := by
  fin_cases h <;> decide

theorem canonId_form {id : List Char} (h : id ∈ canonIdList) :
    id ≠ [] ∧ id.all slugCh = true := by
  fin_cases h <;> exact ⟨by decide, by decide⟩

theorem canonL_cases (l : List Char) :
    (∃ id ∈ canonIdList, canonL l = id) ∨
      (canonRules (lowL l) = none ∧ slug (lowL l) ≠ [] ∧
        canonL l = slug (lowL l)) ∨
      (canonRules (lowL l) = none ∧ slug (lowL l) = [] ∧ canonL l = lowL l) := by
  cases hr : canonRules (lowL l) with
  | some id =>
    refine Or.inl ⟨id, canonRules_mem hr, ?_⟩
    simp only [canonL, hr]
  | none =>
    by_cases hn : slug (lowL l) = []
    · refine Or.inr (Or.inr ⟨rfl, hn, ?_⟩)
      simp only [canonL, hr]
      rw [if_pos hn]
    · refine Or.inr (Or.inl ⟨rfl, hn, ?_⟩)
      simp only [canonL, hr]
      rw [if_neg hn]

theorem canonL_triple (l : List Char) :
    canonL (canonL (canonL l)) = canonL (canonL l) := by
  rcases canonL_cases l with ⟨id, hid, hF⟩ | ⟨hr, hn, hF⟩ | ⟨hr, hn, hF⟩
  · rw [hF, canonL_id_fixed hid, canonL_id_fixed hid]
  · rw [hF]
    have hlow : lowL (slug (lowL l)) = slug (lowL l) := lowL_slug _
    cases hr2 : canonRules (slug (lowL l)) with
    | some id =>
      have hstep : canonL (slug (lowL l)) = id := by
        simp only [canonL, hlow, hr2]
      rw [hstep, canonL_id_fixed (canonRules_mem hr2)]
    | none =>
      have hsl : slug (slug (lowL l)) = slug (lowL l) := slug_idem _
      have hstep : canonL (slug (lowL l)) = slug (lowL l) := by
        simp only [canonL, hlow, hr2, hsl]
        rw [if_neg hn]
      rw [hstep, hstep]
  · rw [hF]
    have hstep : canonL (lowL l) = lowL l := by
      simp only [canonL, lowL_idem, hr]
      rw [if_pos hn]
    rw [hstep, hstep]

theorem canonL_slug_form (l : List Char) (h : (lowL l).any isLowerAlnum = true) :
    canonL l ≠ [] ∧ (canonL l).all slugCh = true := by
  rcases canonL_cases l with ⟨id, hid, hF⟩ | ⟨hr, hn, hF⟩ | ⟨hr, hn, hF⟩
  · rw [hF]
    exact canonId_form hid
  · rw [hF]
    exact ⟨hn, slug_all_slugCh _⟩
  · exact absurd hn (slug_ne_nil_of_alnum h)

/-! ### C1 — the Scorer computes the spec's penalty/score/risk formulas -/

/-- The spec's penalty table, stated independently of the code: 80/55/40
for critical/high/medium after case-insensitive lookup, 15 for low and
for every unknown or missing severity. -/
def specPenalty (sev : Option String) : Nat :=
  match sev with
  | none => 15
  | some s =>
    if lowS s = "critical" then 80
    else if lowS s = "high" then 55
    else if lowS s = "medium" then 40
    else 15

theorem findingPenalty_eq_specPenalty (v : Finding) :
    findingPenalty v = specPenalty v.severity := by
  unfold findingPenalty specPenalty orLow
  cases hs : v.severity with
  | none => rfl
  | some s =>
    by_cases he : s = ""
    · subst he
      rfl
    · simp only [he, if_neg, if_false]
      unfold severityPenaltyGet
      split_ifs <;> rfl

/-- C1: for every finding list the Scorer's `risk_score` is the sum of
the spec's per-severity penalties (critical=80, high=55, medium=40,
low=15, case-insensitive lookup, unknown/missing severities counting as
low), `security_score = max(0, 100 - total_penalty)`, and `risk_level`
is derived from `security_score` by the thresholds ≥80 low, ≥60 medium,
≥40 high, otherwise critical. -/
theorem scorer_matches_spec_table (vs : List Finding) :
    (scoreOf vs).risk_score = (vs.map (fun v => specPenalty v.severity)).sum ∧
    (scoreOf vs).security_score =
      max 0 (100 - ((vs.map (fun v => specPenalty v.severity)).sum : Int)) ∧
    (scoreOf vs).risk_level =
      (if (scoreOf vs).security_score ≥ 80 then "low"
       else if (scoreOf vs).security_score ≥ 60 then "medium"
       else if (scoreOf vs).security_score ≥ 40 then "high"
       else "critical") := by
  have hsum : totalPenalty vs = (vs.map (fun v => specPenalty v.severity)).sum := by
    unfold totalPenalty
    congr 1
    exact List.map_congr_left (fun v _ => findingPenalty_eq_specPenalty v)
  refine ⟨hsum, ?_, ?_⟩
  · show securityScore vs = _
    unfold securityScore
    rw [hsum]
  · rfl

/-! ### C6 — an extra critical finding strictly decreases the score -/

theorem totalPenalty_append_critical (vs : List Finding) (f : Finding)
    (h : f.severity = some "critical") :
    totalPenalty (vs ++ [f]) = totalPenalty vs + 80 := by
  unfold totalPenalty
  rw [List.map_append, List.sum_append]
  have : findingPenalty f = 80 := by
    unfold findingPenalty orLow
    rw [h]
    rfl
  simp [this]

/-- C6: appending one finding of severity `critical` strictly decreases
`security_score`, except that the score stays equal (at 0) exactly when
it is already at the floor 0. -/
theorem critical_strictly_decreases_score (vs : List Finding) (f : Finding)
    (h : f.severity = some "critical") :
    (0 < securityScore vs → securityScore (vs ++ [f]) < securityScore vs) ∧
    (securityScore vs = 0 → securityScore (vs ++ [f]) = 0) := by
  unfold securityScore
  rw [totalPenalty_append_critical vs f h]
  set t : Int := (totalPenalty vs : Int) with ht
  have ht0 : 0 ≤ t := by positivity
  push_cast
  rcases max_cases (0 : Int) (100 - t) with ⟨h1, h1'⟩ | ⟨h1, h1'⟩ <;>
    rcases max_cases (0 : Int) (100 - (t + 80)) with ⟨h2, h2'⟩ | ⟨h2, h2'⟩ <;>
      rw [h1, h2] <;> omega

/-- Witness for C6 at a concrete input: one medium finding scores 60,
and appending a critical finding drops the score strictly below 60. -/
theorem critical_strictly_decreases_score_witness :
    0 < securityScore [{ severity := some "medium" }] ∧
    securityScore ([{ severity := some "medium" }] ++ [{ severity := some "critical" }]) <
      securityScore [{ severity := some "medium" }] := by
  have h := critical_strictly_decreases_score
    [{ severity := some "medium" }] { severity := some "critical" } rfl
  have hpos : 0 < securityScore [{ severity := some "medium" }] := by decide
  exact ⟨hpos, h.1 hpos⟩

/-! ### C2 — the Merger keeps heuristics and appends corroborated,
unseen externals in input order -/

/-- The Merger's specification (§4.4 of the spec), stated as a recursion
over the external findings: exactly those externals whose lowercased
issue text is not in the seen set (extended as externals are accepted)
and which pass the Corroboration Filter, in input order. -/
def acceptedExternals (code : String) (seen : List String) :
    List Finding → List Finding
  | [] => []
  | v :: rest =>
    let n := lowS (v.issue.getD "")
    if n ∈ seen then acceptedExternals code seen rest
    else if verify_ai_finding v code then
      v :: acceptedExternals code (seen ++ [n]) rest
    else acceptedExternals code seen rest

theorem mergeGo_eq_append (code : String) (a : List Finding) :
    ∀ (acc : List Finding) (seen : List String),
      mergeGo code a acc seen = acc ++ acceptedExternals code seen a := by
  induction a with
  | nil => intro acc seen; simp [mergeGo, acceptedExternals]
  | cons v rest ih =>
    intro acc seen
    simp only [mergeGo, acceptedExternals]
    split_ifs with h1 h2
    · exact ih acc seen
    · rw [ih (acc ++ [v]) (seen ++ [lowS (v.issue.getD "")])]
      simp
    · exact ih acc seen

/-- C2: the Merger's output is all heuristic findings first (in
catalogue order, unconditionally kept) followed by exactly those
external findings, in input order, that are not already in the seen set
(initialized from the heuristic findings' lowercased issue text and
extended as externals are accepted) and that pass the Corroboration
Filter. -/
theorem merger_matches_spec (static_vulns ai_vulns : List Finding) (code : String) :
    mergeVulns static_vulns ai_vulns code =
      static_vulns ++
        acceptedExternals code
          (static_vulns.map (fun v => lowS (v.issue.getD ""))) ai_vulns := by
  unfold mergeVulns
  exact mergeGo_eq_append code ai_vulns static_vulns _

/-! ### C4 — what the pipeline does and does not preserve on heuristic
findings -/

/-- C4 counterexample: for the heuristic finding `SQL Injection`
(critical, line 1), the merged output's `issue` field is the canonical
id `"sql_injection"`, not the original `"SQL Injection"` — the
canonicalisation pass does mutate `issue`. -/
theorem merged_issue_rewritten_counterexample :
    (mergedCanonical
        [{ issue := some "SQL Injection", severity := some "critical",
           line_numbers := some [1] }] [] "").map Finding.issue =
      [some "sql_injection"] ∧
    ("sql_injection" : String) ≠ "SQL Injection" := by
  constructor
  · rfl
  · decide

/-- C4 (amended): in the final merged output, every heuristic finding
keeps its `severity`, `line_numbers`, `explanation` and
`fix_suggestion` unchanged; its `issue` field is replaced by the
canonical form of the original issue text, which is preserved in the
added `original_issue` field. -/
theorem merged_preserves_heuristic_fields (s a : List Finding) (code : String)
    (i : Nat) (hi : i < s.length) :
    (mergedCanonical s a code)[i]? =
      (s[i]?).map (fun v =>
        { v with original_issue := some (v.issue.getD ""),
                 issue := some (canonicalize_issue (v.issue.getD "")) }) := by
  unfold mergedCanonical canonicalizePass mergeVulns
  rw [mergeGo_eq_append, List.map_append,
    List.getElem?_append_left (by simpa using hi), List.getElem?_map]

/-- A sample heuristic finding used by concrete witnesses. -/
def secretSample : Finding :=
  { issue := some "Hardcoded Secret", severity := some "critical",
    line_numbers := some [1] }

/-- Witness for C4's amended theorem at a concrete input. -/
theorem merged_preserves_heuristic_fields_witness :
    (mergedCanonical [secretSample] [] "x")[0]? =
      (([secretSample] : List Finding)[0]?).map (fun v =>
        { v with original_issue := some (v.issue.getD ""),
                 issue := some (canonicalize_issue (v.issue.getD "")) }) :=
  merged_preserves_heuristic_fields [secretSample] [] "x" 0 (by decide)

/-! ### C5 — the Corroboration Filter rejects unknown categories and
missing issue fields -/

/-- Every keyword that appears in some accepting guard of
`verify_ai_finding` (besides the path-traversal guard, handled
separately): a candidate whose lowercased issue text contains none of
these matches no known category. -/
def corroborationCategoryKws : List String :=
  ["sql", "sql_injection", "command", "subprocess", "os.system", "pickle",
   "deserial", "eval", "arbitrary code", "xss", "innerhtml", "ssrf",
   "hardcod", "secret", "api_key", "idor", "csrf"]

/-- C5: a candidate finding whose issue text matches no known category —
in particular one with a missing `issue` field, which is treated as the
empty string — is rejected by the Corroboration Filter for every code
text, and merging it adds nothing to the result. -/
theorem corroboration_rejects_unknown (v : Finding) (code : String)
    (s : List Finding)
    (hkw : ∀ k ∈ corroborationCategoryKws,
      occursIn k.data (lowS (v.issue.getD "")).data = false)
    (hpath : occursIn "path".data (lowS (v.issue.getD "")).data = false ∨
      (occursIn "travers".data (lowS (v.issue.getD "")).data = false ∧
       occursIn "traversal".data (lowS (v.issue.getD "")).data = false)) :
    verify_ai_finding v code = false ∧ mergeVulns s [v] code = s := by
  simp only [corroborationCategoryKws, List.mem_cons,
    List.not_mem_nil, or_false, forall_eq_or_imp, forall_eq] at hkw
  obtain ⟨h1, h2, h3, h4, h5, h6, h7, h8, h9, h10, h11, h12, h13, h14, h15,
    h16, h17⟩ := hkw
  have hver : verify_ai_finding v code = false := by
    rcases hpath with hp | ⟨ht1, ht2⟩
    · simp [verify_ai_finding, h1, h2, h3, h4, h5, h6, h7, h8, h9, h10, h11,
        h12, h13, h14, h15, h16, h17, hp]
    · simp [verify_ai_finding, h1, h2, h3, h4, h5, h6, h7, h8, h9, h10, h11,
        h12, h13, h14, h15, h16, h17, ht1, ht2]
  refine ⟨hver, ?_⟩
  simp only [mergeVulns, mergeGo, hver, Bool.false_eq_true, if_false]
  split_ifs <;> rfl

/-- Witness for C5 at concrete inputs: a candidate with a missing
`issue` field (treated as the empty string) is rejected and absent from
the merge, for a code text that would corroborate several categories. -/
theorem corroboration_rejects_unknown_witness :
    verify_ai_finding { issue := none, severity := some "critical" }
      "eval(pickle.loads(x))" = false ∧
    mergeVulns [{ issue := some "SQL Injection" }]
      [{ issue := none, severity := some "critical" }]
      "eval(pickle.loads(x))" = [{ issue := some "SQL Injection" }] :=
  corroboration_rejects_unknown
    { issue := none, severity := some "critical" } "eval(pickle.loads(x))"
    [{ issue := some "SQL Injection" }] (by decide) (by decide)

/-! ### C7 — unconditional hardcoded-secret detection -/

/-- C7: on the input `API_KEY = "sk-1234567890abcdefghijklmnopqrstuvwxyz"`
the Pattern Matcher emits exactly one finding: a `Hardcoded Secret`
finding with severity `critical` (matched on line 1). -/
theorem hardcoded_secret_detected :
    run_static_analysis "API_KEY = \"sk-1234567890abcdefghijklmnopqrstuvwxyz\"" =
      [secretFinding [1]] ∧
    (secretFinding [1]).issue = some "Hardcoded Secret" ∧
    (secretFinding [1]).severity = some "critical" := by
  refine ⟨by decide, rfl, rfl⟩

/-! ### C9 — the third SQL pattern fires without any SQL construction -/

/-- C9: the input `count = deleted + 1` contains no `execute` call (even
case-insensitively) and no quote character at all — so no SQL query
construction — yet the Pattern Matcher emits a critical `SQL Injection`
finding for line 1, because the third SQL pattern
`(SELECT|INSERT|UPDATE|DELETE).*?\+.*?` matches the substring `delete`
of `deleted` followed by `+`, while the first two SQL patterns (the
`execute(`-anchored ones) do not match. -/
theorem sql_keyword_plus_false_positive :
    occursIn "execute".data (lowL "count = deleted + 1".data) = false ∧
    "count = deleted + 1".data.any quoteCh = false ∧
    Regex.rsearch (sqlP1 true) "count = deleted + 1".data = false ∧
    Regex.rsearch (sqlP2 true) "count = deleted + 1".data = false ∧
    Regex.rsearch (sqlP3 true) "count = deleted + 1".data = true ∧
    run_static_analysis "count = deleted + 1" = [sqlFinding [1]] := by
  refine ⟨by decide, by decide, by decide, by decide, by decide, by decide⟩

/-! ### C8 — document-level match without a line-level match -/

theorem sqlLoop_eq_nil (cs : List Char) (lines : List (List Char))
    (ps : List (Bool → Regex))
    (h : ∀ p ∈ ps, linesWhere (fun l => Regex.rsearch (p false) l) lines = []) :
    sqlLoop cs lines ps = [] := by
  induction ps with
  | nil => rfl
  | cons p rest ih =>
    have hp := h p (by simp)
    simp only [sqlLoop, hp, ne_eq, not_true_eq_false, if_false, ite_self]
    exact ih (fun q hq => h q (by simp [hq]))

theorem sqlLoop_mem {v : Finding} {cs : List Char} {lines : List (List Char)}
    {ps : List (Bool → Regex)} (h : v ∈ sqlLoop cs lines ps) :
    ∃ ml, v = sqlFinding ml := by
  induction ps with
  | nil => simp [sqlLoop] at h
  | cons p rest ih =>
    simp only [sqlLoop] at h
    split at h
    · split at h
      · exact ⟨_, by simpa using h⟩
      · exact ih h
    · exact ih h

theorem mem_simpleRule {v : Finding} {d : Bool} {ml : List Nat} {cap : Nat}
    {f : Finding} (h : v ∈ simpleRule d ml cap f) :
    v = { f with line_numbers := some (ml.take cap) } := by
  unfold simpleRule at h
  split at h
  · split at h
    · simpa using h
    · simp at h
  · simp at h

theorem secretLoop_mem {v : Finding} {cs : List Char} {ps : List Regex}
    (h : v ∈ secretLoop cs ps) : ∃ ml, v = secretFinding ml := by
  induction ps with
  | nil => simp [secretLoop] at h
  | cons p rest ih =>
    simp only [secretLoop] at h
    split at h
    · split at h
      · exact ⟨_, by simpa using h⟩
      · exact ih h
    · exact ih h

theorem pathLoop_mem {v : Finding} {cs : List Char} {lines : List (List Char)}
    {ps : List Regex} (h : v ∈ run_static_analysis.pathLoop cs lines ps) :
    ∃ ml, v = run_static_analysis.pathFinding ml := by
  induction ps with
  | nil => simp [run_static_analysis.pathLoop] at h
  | cons p rest ih =>
    simp only [run_static_analysis.pathLoop] at h
    split at h
    · split at h
      · exact ⟨_, by simpa using h⟩
      · exact ih h
    · exact ih h

/-- C8 (amended): when no individual line matches any of the SQL
patterns (per-line search, `re.IGNORECASE` only), the Pattern Matcher
emits no SQL Injection finding at all — even when a pattern matches at
the document level (where `re.DOTALL` lets `.*?` span newlines).  The
`if matching_lines:` guard suppresses emission rather than emitting a
finding with an empty line-number list; the scan never raises. -/
theorem sql_doc_match_without_line_match_no_finding (code : String)
    (_hdoc : Regex.rsearch (sqlP1 true) code.data = true)
    (h1 : linesWhere (fun l => Regex.rsearch (sqlP1 false) l) (splitNl code.data) = [])
    (h2 : linesWhere (fun l => Regex.rsearch (sqlP2 false) l) (splitNl code.data) = [])
    (h3 : linesWhere (fun l => Regex.rsearch (sqlP3 false) l) (splitNl code.data) = []) :
    (run_static_analysis code).all
      (fun v => !(v.issue == some "SQL Injection")) = true := by
  rw [List.all_eq_true]
  intro v hv
  simp only [run_static_analysis] at hv
  rw [sqlLoop_eq_nil _ _ _ (by
    intro p hp
    simp only [List.mem_cons, List.not_mem_nil, or_false] at hp
    rcases hp with rfl | rfl | rfl
    · exact h1
    · exact h2
    · exact h3)] at hv
  simp only [List.nil_append, List.mem_append] at hv
  repeat rcases hv with hv | hv
  all_goals first
    | (obtain ⟨ml, rfl⟩ := secretLoop_mem hv; rfl)
    | (obtain ⟨ml, rfl⟩ := pathLoop_mem hv; rfl)
    | (rw [mem_simpleRule hv]; rfl)

/-- The concrete two-line input showing the document/line mismatch: the
first SQL pattern needs `re.DOTALL` (document-level only) to bridge the
newline between `execute(f"` and `SELECT`. -/
def sqlCx : String := "execute(f\"\nSELECT * FROM t"

/-- C8 counterexample: on `sqlCx` the first SQL pattern matches at
document level while no line matches it, and the Pattern Matcher emits
no finding at all — not a SQL Injection finding with an empty
line-number list as the claim states. -/
theorem sql_doc_match_counterexample :
    Regex.rsearch (sqlP1 true) sqlCx.data = true ∧
    linesWhere (fun l => Regex.rsearch (sqlP1 false) l) (splitNl sqlCx.data) = [] ∧
    run_static_analysis sqlCx = [] := by
  refine ⟨by decide, by decide, by decide⟩

/-- Witness for C8's amended theorem at the concrete input `sqlCx`. -/
theorem sql_doc_match_without_line_match_no_finding_witness :
    (run_static_analysis sqlCx).all
      (fun v => !(v.issue == some "SQL Injection")) = true :=
  sql_doc_match_without_line_match_no_finding sqlCx
    (by decide) (by decide) (by decide) (by decide)

/-! ### C10 — IDOR suppression is document-global -/

theorem lit_rmatch_iff (s t : List Char) :
    Regex.rmatch (lit s) t = true ↔ t = s := by
  induction s generalizing t with
  | nil => simpa [lit] using Regex.eps_rmatch_iff t
  | cons c cs ih =>
    simp only [lit]
    rw [Regex.cat_rmatch_iff]
    constructor
    · rintro ⟨t1, u, htu, h1, h2⟩
      unfold chr at h1
      rw [Regex.cls_rmatch_iff] at h1
      obtain ⟨d, rfl, hd⟩ := h1
      rw [ih] at h2
      simp only [beq_iff_eq] at hd
      rw [htu, h2, hd]
      rfl
    · rintro rfl
      refine ⟨[c], cs, rfl, ?_, (ih cs).mpr rfl⟩
      unfold chr
      rw [Regex.cls_rmatch_iff]
      exact ⟨c, rfl, by simp⟩

theorem occursIn_of_occursIn_append (a b l : List Char)
    (h : occursIn (a ++ b) l = true) : occursIn a l = true := by
  rw [occursIn_iff] at h ⊢
  obtain ⟨x, y, hxy⟩ := h
  exact ⟨x, b ++ y, by simp [hxy]⟩

theorem occursIn_cons_of {n : List Char} (b : Char) {bs : List Char}
    (h : occursIn n bs = true) : occursIn n (b :: bs) = true := by
  unfold occursIn
  rw [h, Bool.or_true]

theorem splitNl_cons_of_ne (c : Char) (cs : List Char) (hc : c ≠ '\n')
    (l : List Char) (ls : List (List Char)) (h : splitNl cs = l :: ls) :
    splitNl (c :: cs) = (c :: l) :: ls := by
  unfold splitNl
  rw [if_neg hc, h]

theorem splitNl_append_no_nl (t w : List Char) (ht : ∀ c ∈ t, c ≠ '\n') :
    ∃ l ls, splitNl (t ++ w) = l :: ls ∧ ∃ r, l = t ++ r := by
  induction t with
  | nil =>
    cases hsw : splitNl w with
    | nil => exact absurd hsw (splitNl_ne_nil w)
    | cons l ls => exact ⟨l, ls, by simpa using hsw, l, by simp⟩
  | cons c t' ih =>
    have hc : c ≠ '\n' := ht c (by simp)
    obtain ⟨l, ls, hl, r, hr⟩ := ih (fun d hd => ht d (by simp [hd]))
    refine ⟨c :: l, ls, ?_, r, by simp [hr]⟩
    rw [List.cons_append]
    exact splitNl_cons_of_ne c (t' ++ w) hc l ls hl

theorem line_contains_of_no_nl (u t w : List Char) (ht : ∀ c ∈ t, c ≠ '\n') :
    ∃ l ∈ splitNl (u ++ t ++ w), occursIn t l = true := by
  induction u with
  | nil =>
    obtain ⟨l, ls, hl, r, hr⟩ := splitNl_append_no_nl t w ht
    refine ⟨l, by simp [hl], ?_⟩
    rw [occursIn_iff]
    exact ⟨[], r, by simp [hr]⟩
  | cons c u' ih =>
    obtain ⟨l, hl, ho⟩ := ih
    by_cases hc : c = '\n'
    · subst hc
      refine ⟨l, ?_, ho⟩
      show l ∈ splitNl ('\n' :: (u' ++ t ++ w))
      unfold splitNl
      rw [if_pos rfl]
      exact List.mem_cons_of_mem _ hl
    · cases hsr : splitNl (u' ++ t ++ w) with
      | nil => exact absurd hsr (splitNl_ne_nil _)
      | cons l0 ls =>
        have hstep : splitNl (c :: (u' ++ t ++ w)) = (c :: l0) :: ls :=
          splitNl_cons_of_ne c (u' ++ t ++ w) hc l0 ls hsr
        rw [hsr] at hl
        rcases List.mem_cons.mp hl with heq | hmem
        · refine ⟨c :: l0, ?_, ?_⟩
          · simp only [List.cons_append]
            rw [hstep]
            exact List.mem_cons_self _ _
          · subst heq
            exact occursIn_cons_of c ho
        · refine ⟨l, ?_, ho⟩
          simp only [List.cons_append]
          rw [hstep]
          exact List.mem_cons_of_mem _ hmem

theorem linesWhere_ne_nil {f : List Char → Bool} {lines : List (List Char)}
    {l : List Char} (hl : l ∈ lines) (hf : f l = true) :
    linesWhere f lines ≠ [] := by
  obtain ⟨i, hi, rfl⟩ := List.mem_iff_getElem.mp hl
  have hmem : (i, lines[i]) ∈ lines.enum := by
    rw [List.mk_mem_enum_iff_getElem?]
    exact List.getElem?_eq_getElem hi
  have hfil : (i, lines[i]) ∈ lines.enum.filter (fun p => f p.2) :=
    List.mem_filter.mpr ⟨hmem, hf⟩
  intro hnil
  unfold linesWhere at hnil
  rw [List.map_eq_nil_iff] at hnil
  rw [hnil] at hfil
  exact absurd hfil (List.not_mem_nil _)

theorem rmatch_idorRouteR_head {m : List Char}
    (h : Regex.rmatch idorRouteR m = true) :
    ∃ r, m = "@app.route(".data ++ r := by
  simp only [idorRouteR, rcat] at h
  rw [Regex.cat_rmatch_iff] at h
  obtain ⟨t, u, htu, h1, _⟩ := h
  rw [lit_rmatch_iff] at h1
  exact ⟨u, by rw [htu, h1]⟩

/-- A document-level IDOR-route match guarantees that some line contains
the text `@app.route` (so the rule's line list is non-empty). -/
theorem idor_route_line_exists (code : String)
    (h : Regex.rsearch idorRouteR code.data = true) :
    linesWhere (occursIn "@app.route".data) (splitNl code.data) ≠ [] := by
  rw [Regex.rsearch_iff] at h
  obtain ⟨u, m, w, humw, hm⟩ := h
  obtain ⟨r, rfl⟩ := rmatch_idorRouteR_head hm
  have hiseq : code.data = u ++ "@app.route(".data ++ (r ++ w) := by
    rw [humw]
    simp
  obtain ⟨l, hl, ho⟩ := line_contains_of_no_nl u "@app.route(".data (r ++ w)
    (by decide)
  rw [← hiseq] at hl
  have ho' : occursIn ("@app.route".data ++ ['(']) l = true := ho
  exact linesWhere_ne_nil hl (occursIn_of_occursIn_append _ _ _ ho')

theorem mem_simpleRule_cond {v : Finding} {d : Bool} {ml : List Nat} {cap : Nat}
    {f : Finding} (h : v ∈ simpleRule d ml cap f) : d = true := by
  unfold simpleRule at h
  split at h
  · assumption
  · simp at h

/-- The finding emitted by the IDOR rule. -/
def idorFinding (ls : List Nat) : Finding :=
  { issue := some "IDOR (missing authorization)", severity := some "high",
    explanation := some "Endpoint exposes resource identifiers without authorization checks (IDOR).",
    line_numbers := some ls,
    fix_suggestion := some "Enforce authorization checks for resource access." }

/-- C10: whenever the IDOR route pattern
`@app\.route\([^)]*<\w+>[^)]*\)` matches the document, the Pattern
Matcher emits an `IDOR (missing authorization)` finding if and only if
the keyword regex `auth|login|required_role|current_user|authorize|permission`
matches nowhere in the entire document (case-insensitively) — the
suppression is document-global, not limited to text near the route. -/
theorem idor_iff_no_auth_keyword (code : String)
    (hroute : Regex.rsearch idorRouteR code.data = true) :
    ((run_static_analysis code).any
        (fun v => v.issue == some "IDOR (missing authorization)") = true) ↔
      Regex.rsearch authKwR code.data = false := by
  constructor
  · intro hany
    rw [List.any_eq_true] at hany
    obtain ⟨v, hv, hissue⟩ := hany
    simp only [run_static_analysis] at hv
    rw [List.mem_append] at hv
    rcases hv with hv | hv
    · -- everything before the IDOR rule has a different issue name
      exfalso
      simp only [List.mem_append] at hv
      repeat rcases hv with hv | hv
      · obtain ⟨ml, rfl⟩ := sqlLoop_mem hv
        simp [sqlFinding] at hissue
      all_goals first
        | (obtain ⟨ml, rfl⟩ := secretLoop_mem hv;
            simp [secretFinding] at hissue)
        | (obtain ⟨ml, rfl⟩ := pathLoop_mem hv;
            simp [run_static_analysis.pathFinding] at hissue)
        | (rw [mem_simpleRule hv] at hissue; simp at hissue)
    · have hcond := mem_simpleRule_cond hv
      rw [Bool.and_eq_true, Bool.not_eq_true'] at hcond
      exact hcond.2
  · intro hauth
    rw [List.any_eq_true]
    refine ⟨idorFinding ((linesWhere (occursIn "@app.route".data)
        (splitNl code.data)).take 3), ?_, by simp [idorFinding]⟩
    simp only [run_static_analysis]
    rw [List.mem_append]
    right
    unfold simpleRule
    rw [hroute, hauth]
    simp only [Bool.not_false, Bool.and_self]
    rw [if_pos trivial, if_pos (idor_route_line_exists code hroute)]
    simp [idorFinding]

/-- Witness for C10 at a concrete route declaration carrying a path
parameter and no auth keyword anywhere. -/
theorem idor_iff_no_auth_keyword_witness :
    ((run_static_analysis "@app.route(/user/<id>)").any
        (fun v => v.issue == some "IDOR (missing authorization)") = true) ↔
      Regex.rsearch authKwR "@app.route(/user/<id>)".data = false :=
  idor_iff_no_auth_keyword "@app.route(/user/<id>)" (by decide)

/-! ### C3 — totality, idempotency and slug form of the Canonicalizer -/

/-- C3 counterexample: the Canonicalizer is not idempotent and its
result is not always a non-empty `[a-z0-9_]+` slug.  On the empty
string it returns the empty string (`return norm or s`), and on
`"api-token"` it returns the slug `"api_token"`, which a second
application maps to `"hardcoded_secrets"` via the `api_token` keyword of
the hardcoded-secret rule. -/
theorem canonicalize_not_idempotent_counterexample :
    canonicalize_issue "" = "" ∧
    canonicalize_issue "api-token" = "api_token" ∧
    canonicalize_issue (canonicalize_issue "api-token") = "hardcoded_secrets" ∧
    canonicalize_issue (canonicalize_issue "api-token") ≠
      canonicalize_issue "api-token" := by
  refine ⟨by decide, by decide, by decide, by decide⟩

/-- C3 (amended): the Canonicalizer is total (a Lean function), applying
it twice reaches a fixed point (`canonicalize ∘ canonicalize` is
idempotent), and whenever the lowercased input contains at least one
character of `[a-z0-9]` the result is a non-empty string over
`[a-z0-9_]` (i.e. matches `^[a-z0-9_]+$`).  Single-application
idempotency and unconditional non-emptiness fail — see the
counterexample. -/
theorem canonicalize_double_fixed_and_slug :
    (∀ s : String,
      canonicalize_issue (canonicalize_issue (canonicalize_issue s)) =
        canonicalize_issue (canonicalize_issue s)) ∧
    (∀ s : String, (lowL s.data).any isLowerAlnum = true →
      canonicalize_issue s ≠ "" ∧
        (canonicalize_issue s).data.all slugCh = true) := by
  constructor
  · intro s
    show (⟨canonL (canonL (canonL s.data))⟩ : String) = ⟨canonL (canonL s.data)⟩
    rw [canonL_triple]
  · intro s h
    obtain ⟨h1, h2⟩ := canonL_slug_form s.data h
    refine ⟨?_, h2⟩
    intro hs
    apply h1
    have hd := congrArg String.data hs
    simpa using hd

/-- Witness for C3's amended theorem at concrete inputs: the double
application is a fixed point at `"api-token"`, and `"API key"` (whose
lowercase form contains alphanumeric characters) canonicalizes to a
non-empty slug. -/
theorem canonicalize_double_fixed_and_slug_witness :
    canonicalize_issue (canonicalize_issue (canonicalize_issue "api-token")) =
      canonicalize_issue (canonicalize_issue "api-token") ∧
    (canonicalize_issue "API key" ≠ "" ∧
      (canonicalize_issue "API key").data.all slugCh = true) :=
  ⟨canonicalize_double_fixed_and_slug.1 "api-token",
    canonicalize_double_fixed_and_slug.2 "API key" (by decide)⟩

end SecAgent
